import Mathlib

/-!
Shallow embedding of the elliptic-curve core of the repository
(`src/elliptic_curve/finite_field.rs`, `src/elliptic_curve/weierstrass_field_point.rs`,
`src/types/errors.rs`), together with proofs settling the specification claims.

Conventions for the embedding:
* Rust `BigInt` is `Int`.
* `num_integer::mod_floor` with a positive modulus is `Int.emod` (both return the
  least nonnegative residue for a positive modulus).
* Rust `%` on `BigInt` is truncated remainder, i.e. `Int.tmod`.
* `num_bigint`'s `modpow` rounds like `mod_floor`; it panics on a negative exponent,
  and all call sites below pass a nonnegative exponent whenever the modulus is a prime.
* `BigInt >> 1` is an arithmetic shift, i.e. floor division by two (`Int.fdiv · 2`).
* Rust panics (`assert!`, `.unwrap()`) are modelled as the `error` constructor of
  `Except Panic`, to distinguish aborts from the recoverable `Errors` results.
-/

/-- Mathlib's affine Weierstrass curve, aliased at top level so the embedded
`WeierstrassCurve` structure (which shadows the name inside the `Bitcoin`
namespace) can coexist with it. -/
abbrev MathAffine (F : Type) [CommRing F] : Type := WeierstrassCurve.Affine F

/-- The short Weierstrass curve `y² = x³ + A·x + B` as a Mathlib affine curve. -/
def shortAffine (F : Type) [CommRing F] (A B : F) : MathAffine F :=
  { a₁ := 0, a₂ := 0, a₃ := 0, a₄ := A, a₆ := B }

namespace Bitcoin

/-- Embedding of `num_bigint`'s `BigInt::modpow` (floor-style reduction; the Rust
function panics on a negative exponent, which no call site below reaches for a
prime modulus). -/
def modpow (b e m : Int) : Int := (b ^ e.toNat) % m

/-- Embedding of `FieldElement` from `src/elliptic_curve/finite_field.rs`:
a raw integer together with the modulus.  Note that the struct does NOT reduce
`num` on construction. -/
structure FieldElement where
  num : Int
  prime : Int
deriving DecidableEq

namespace FieldElement

/-- Embedding of `FieldElement::new`: it stores `num` unreduced. -/
def new (num prime : Int) : FieldElement := ⟨num, prime⟩

/-- Embedding of `FieldElement::zero`. -/
def zero (prime : Int) : FieldElement := ⟨0, prime⟩

/-- Embedding of `FieldElement::is_zero`: it compares the raw `num` with zero. -/
def is_zero (x : FieldElement) : Bool := x.num == 0

/-- Embedding of `FieldElement::pow`: the exponent (`positive_exponent` in the source) is
first reduced with `mod_floor` by `prime_minus_one = prime - 1`, then `modpow`
is applied. -/
def pow (x : FieldElement) (exp : Int) : FieldElement :=
  ⟨modpow x.num (exp % (x.prime - 1)) x.prime, x.prime⟩

/-- The `Add` impl: `(self.num + elem.num).mod_floor(&self.prime)`.  The source
asserts `self.prime == elem.prime`; every use below satisfies that assert, and
the computation only reads `self.prime`. -/
def fadd (x y : FieldElement) : FieldElement :=
  ⟨(x.num + y.num) % x.prime, x.prime⟩

/-- The `Sub` impl: `(self.num - elem.num).mod_floor(&self.prime)` (same-prime
assert as for `fadd`). -/
def fsub (x y : FieldElement) : FieldElement :=
  ⟨(x.num - y.num) % x.prime, x.prime⟩

/-- The `Mul` impl: `(self.num * elem.num).mod_floor(&self.prime)` (same-prime
assert as for `fadd`). -/
def fmul (x y : FieldElement) : FieldElement :=
  ⟨(x.num * y.num) % x.prime, x.prime⟩

/-- The `Div` impl: Fermat inversion `elem.num.modpow(prime - 2, prime)` followed
by Rust's truncated `%` (same-prime assert as for `fadd`).  There is no zero
check on the divisor. -/
def fdiv (x y : FieldElement) : FieldElement :=
  ⟨Int.tmod (x.num * modpow y.num (x.prime - 2) x.prime) x.prime, x.prime⟩

end FieldElement

/-- Embedding of `WeierstrassCurve` from `src/elliptic_curve/weierstrass_field_point.rs`. -/
structure WeierstrassCurve where
  a : FieldElement
  b : FieldElement
deriving DecidableEq

/-- Embedding of `EllipticCurve::defining_equation`: `y.pow(2) - x.pow(3) - a * x - b`. -/
def WeierstrassCurve.defining_equation (c : WeierstrassCurve) (x y : FieldElement) :
    FieldElement :=
  (((y.pow 2).fsub (x.pow 3)).fsub (c.a.fmul x)).fsub c.b

/-- Embedding of the error enum from `src/types/errors.rs`. -/
inductive Errors where
  | InvalidPoint
  | DifferentCurves
deriving DecidableEq

/-- Embedding of `Coords` from `src/elliptic_curve/traits.rs`. -/
inductive Coords where
  | point (x y : FieldElement)
  | infinity
deriving DecidableEq

/-- Embedding of `Point` from `src/elliptic_curve/traits.rs` (the borrowed curve
reference becomes a field holding the curve value). -/
structure Point where
  coords : Coords
  curve : WeierstrassCurve
deriving DecidableEq

/-- The two ways `Add for Point` can abort the process: the different-curves
`assert!` and the `.unwrap()` on `new_point`. -/
inductive Panic where
  | differentCurvesAssert
  | unwrapFailed
deriving DecidableEq

instance {ε α : Type} [DecidableEq ε] [DecidableEq α] : DecidableEq (Except ε α) := fun a b =>
  match a, b with
  | .error e1, .error e2 =>
    if h : e1 = e2 then .isTrue (by rw [h]) else .isFalse (by intro hc; cases hc; exact h rfl)
  | .ok a1, .ok a2 =>
    if h : a1 = a2 then .isTrue (by rw [h]) else .isFalse (by intro hc; cases hc; exact h rfl)
  | .error _, .ok _ => .isFalse (by intro hc; cases hc)
  | .ok _, .error _ => .isFalse (by intro hc; cases hc)

/-- Embedding of `Point::new_point`: validates the defining equation and fails with
`Errors::InvalidPoint`. -/
def Point.new_point (curve : WeierstrassCurve) (x y : FieldElement) :
    Except Errors Point :=
  if curve.defining_equation x y ≠ FieldElement.zero x.prime then
    .error .InvalidPoint
  else
    .ok ⟨Coords.point x y, curve⟩

/-- Embedding of `Point::new_infinity`. -/
def Point.new_infinity (curve : WeierstrassCurve) : Point :=
  ⟨Coords.infinity, curve⟩

/-- The `Add` impl for `Point<WeierstrassCurve>`: the curve-equality `assert!`
first, then the case analysis on coordinates.  Both `assert!` and `.unwrap()`
failures are surfaced as `Panic` values. -/
def Point.add (self other : Point) : Except Panic Point :=
  if self.curve ≠ other.curve then .error .differentCurvesAssert
  else
    match self.coords, other.coords with
    | .infinity, _ => .ok other
    | _, .infinity => .ok self
    | .point x1 y1, .point x2 y2 =>
      let curve := self.curve
      if x1 = x2 then
        if y1 = y2 then
          if y1.is_zero then .ok (Point.new_infinity curve)
          else
            let numerator := ((FieldElement.new 3 curve.a.prime).fmul (x1.pow 2)).fadd curve.a
            let denominator := (FieldElement.new 2 curve.a.prime).fmul y1
            let slope := numerator.fdiv denominator
            let x3 := (slope.pow 2).fsub ((FieldElement.new 2 curve.a.prime).fmul x1)
            let y3 := (slope.fmul (x1.fsub x3)).fsub y1
            match Point.new_point curve x3 y3 with
            | .ok p => .ok p
            | .error _ => .error .unwrapFailed
        else .ok (Point.new_infinity curve)
      else
        let slope := (y2.fsub y1).fdiv (x2.fsub x1)
        let x3 := ((slope.pow 2).fsub x1).fsub x2
        let y3 := (slope.fmul (x1.fsub x3)).fsub y1
        match Point.new_point curve x3 y3 with
        | .ok p => .ok p
        | .error _ => .error .unwrapFailed

/-- The body of the `while` loop of `Mul for Point`, specialised to a
nonnegative (natural-number) remaining coefficient.  The extra `fuel` argument
only makes the recursion structural; since the coefficient at least halves on
every iteration, starting with `fuel = coeff` (as `Point.mul` does) the `fuel = 0`
branch is reached only with `coeff = 0`.  `Point.mulLoopFuel` below is the loop
on arbitrary `BigInt` coefficients. -/
def Point.mulGo (fuel coeff : Nat) (current result : Point) : Except Panic Point :=
  match fuel with
  | 0 => .ok result
  | fuel2 + 1 =>
    if coeff = 0 then .ok result
    else
      match (if coeff % 2 ≠ 0 then result.add current else .ok result) with
      | .error e => .error e
      | .ok result2 =>
        match current.add current with
        | .error e => .error e
        | .ok current2 => Point.mulGo fuel2 (coeff / 2) current2 result2

/-- The `while coeff != 0` loop of `Mul for Point` on a `BigInt` coefficient,
step-indexed by fuel: `none` means the loop is still running after `fuel`
iterations.  The odd test is `coeff & 1 != 0` and the shift `coeff >>= 1` is an
arithmetic (floor) shift. -/
def Point.mulLoopFuel (fuel : Nat) (coeff : Int) (current result : Point) :
    Option (Except Panic Point) :=
  match fuel with
  | 0 => none
  | fuel2 + 1 =>
    if coeff = 0 then some (.ok result)
    else
      match (if coeff % 2 ≠ 0 then result.add current else .ok result) with
      | .error e => some (.error e)
      | .ok result2 =>
        match current.add current with
        | .error e => some (.error e)
        | .ok current2 => Point.mulLoopFuel fuel2 (Int.fdiv coeff 2) current2 result2

/-- Entry point of `Mul for Point` for a nonnegative coefficient: `result`
starts at infinity on `self`'s curve and `current` at `self`. -/
def Point.mul (self : Point) (coefficient : Nat) : Except Panic Point :=
  Point.mulGo coefficient coefficient self (Point.new_infinity self.curve)

/-- Canonicity of a field element with respect to the natural prime `p`:
the stored value is the least nonnegative residue. -/
abbrev canonical (p : ℕ) (x : FieldElement) : Prop :=
  x.prime = (p : ℤ) ∧ 0 ≤ x.num ∧ x.num < (p : ℤ)

/-- The residue of a field element in `ZMod p`. -/
def toZ (p : ℕ) (x : FieldElement) : ZMod p := (x.num : ZMod p)

/-- The canonical field element representing a residue. -/
def ofZ (p : ℕ) (v : ZMod p) : FieldElement := ⟨(v.val : ℤ), (p : ℤ)⟩

/-! Bridge lemmas between the integer-level embedding and `ZMod p`. -/

lemma intCast_emod (p : ℕ) (a : ℤ) :
    ((a % (p : ℤ) : ℤ) : ZMod p) = (a : ZMod p) := by
  rw [ZMod.intCast_eq_intCast_iff']
  exact Int.emod_emod_of_dvd a dvd_rfl

lemma emod_bounds {p : ℕ} (hp : 0 < p) (a : ℤ) :
    0 ≤ a % (p : ℤ) ∧ a % (p : ℤ) < (p : ℤ) :=
  ⟨Int.emod_nonneg a (by exact_mod_cast hp.ne'),
   Int.emod_lt_of_pos a (by exact_mod_cast hp)⟩

lemma canonical_inj {p : ℕ} {a b : ℤ} (ha0 : 0 ≤ a) (ha1 : a < (p : ℤ))
    (hb0 : 0 ≤ b) (hb1 : b < (p : ℤ)) (h : (a : ZMod p) = (b : ZMod p)) : a = b := by
  rw [ZMod.intCast_eq_intCast_iff'] at h
  rwa [Int.emod_eq_of_lt ha0 ha1, Int.emod_eq_of_lt hb0 hb1] at h

lemma toZ_eq_zero_iff {p : ℕ} (hp : 0 < p) {x : FieldElement} (hx : canonical p x) :
    toZ p x = 0 ↔ x.num = 0 := by
  constructor
  · intro h
    exact canonical_inj hx.2.1 hx.2.2 le_rfl (by exact_mod_cast hp) (by simpa [toZ] using h)
  · intro h
    simp [toZ, h]

lemma toZ_inj {p : ℕ} {x y : FieldElement} (hx : canonical p x) (hy : canonical p y)
    (h : toZ p x = toZ p y) : x = y := by
  have hnum : x.num = y.num := canonical_inj hx.2.1 hx.2.2 hy.2.1 hy.2.2 h
  have hpr : x.prime = y.prime := by rw [hx.1, hy.1]
  calc x = ⟨x.num, x.prime⟩ := rfl
    _ = ⟨y.num, y.prime⟩ := by rw [hnum, hpr]
    _ = y := rfl

lemma toZ_ofZ {p : ℕ} [NeZero p] (v : ZMod p) : toZ p (ofZ p v) = v := by
  show (((v.val : ℕ) : ℤ) : ZMod p) = v
  rw [Int.cast_natCast]
  exact ZMod.natCast_rightInverse v

lemma ofZ_canonical {p : ℕ} [NeZero p] (v : ZMod p) : canonical p (ofZ p v) :=
  ⟨rfl, Int.natCast_nonneg v.val, by
    show ((v.val : ℕ) : ℤ) < (p : ℤ)
    exact_mod_cast ZMod.val_lt v⟩

lemma eq_ofZ {p : ℕ} [NeZero p] {x : FieldElement} (hx : canonical p x) {v : ZMod p}
    (h : toZ p x = v) : x = ofZ p v :=
  toZ_inj hx (ofZ_canonical v) (by rw [h, toZ_ofZ])

lemma is_zero_iff {x : FieldElement} : x.is_zero = true ↔ x.num = 0 := by
  simp [FieldElement.is_zero]

/-! Residues and canonicity of the five arithmetic operations. -/

lemma fadd_toZ {p : ℕ} {x : FieldElement} (y : FieldElement) (hx : x.prime = (p : ℤ)) :
    toZ p (x.fadd y) = toZ p x + toZ p y := by
  show (((x.num + y.num) % x.prime : ℤ) : ZMod p) = _
  rw [hx, intCast_emod]
  push_cast
  rfl

lemma fadd_canonical {p : ℕ} (hp : 0 < p) {x : FieldElement} (y : FieldElement)
    (hx : x.prime = (p : ℤ)) : canonical p (x.fadd y) :=
  ⟨hx, by simpa [FieldElement.fadd, hx] using emod_bounds hp (x.num + y.num)⟩

lemma fsub_toZ {p : ℕ} {x : FieldElement} (y : FieldElement) (hx : x.prime = (p : ℤ)) :
    toZ p (x.fsub y) = toZ p x - toZ p y := by
  show (((x.num - y.num) % x.prime : ℤ) : ZMod p) = _
  rw [hx, intCast_emod]
  push_cast
  rfl

lemma fsub_canonical {p : ℕ} (hp : 0 < p) {x : FieldElement} (y : FieldElement)
    (hx : x.prime = (p : ℤ)) : canonical p (x.fsub y) :=
  ⟨hx, by simpa [FieldElement.fsub, hx] using emod_bounds hp (x.num - y.num)⟩

lemma fmul_toZ {p : ℕ} {x : FieldElement} (y : FieldElement) (hx : x.prime = (p : ℤ)) :
    toZ p (x.fmul y) = toZ p x * toZ p y := by
  show (((x.num * y.num) % x.prime : ℤ) : ZMod p) = _
  rw [hx, intCast_emod]
  push_cast
  rfl

lemma fmul_canonical {p : ℕ} (hp : 0 < p) {x : FieldElement} (y : FieldElement)
    (hx : x.prime = (p : ℤ)) : canonical p (x.fmul y) :=
  ⟨hx, by simpa [FieldElement.fmul, hx] using emod_bounds hp (x.num * y.num)⟩

lemma modpow_toZ (p : ℕ) (b e : ℤ) :
    ((modpow b e (p : ℤ) : ℤ) : ZMod p) = (b : ZMod p) ^ e.toNat := by
  unfold modpow
  rw [intCast_emod]
  push_cast
  rfl

lemma pow_toZ {p : ℕ} {x : FieldElement} (hx : x.prime = (p : ℤ)) {e : ℤ}
    (he0 : 0 ≤ e) (helt : e < (p : ℤ) - 1) :
    toZ p (x.pow e) = toZ p x ^ e.toNat := by
  show ((modpow x.num (e % (x.prime - 1)) x.prime : ℤ) : ZMod p) = _
  rw [hx, Int.emod_eq_of_lt he0 helt, modpow_toZ]
  rfl

lemma pow_canonical {p : ℕ} (hp : 0 < p) {x : FieldElement} (e : ℤ)
    (hx : x.prime = (p : ℤ)) : canonical p (x.pow e) :=
  ⟨hx, by
    simpa [FieldElement.pow, modpow, hx] using
      emod_bounds hp (x.num ^ (e % ((p : ℤ) - 1)).toNat)⟩

lemma fdiv_num_emod {p : ℕ} (hp : 0 < p) {x : FieldElement} (y : FieldElement)
    (hx : x.prime = (p : ℤ)) (hxn : 0 ≤ x.num) :
    (x.fdiv y).num = (x.num * modpow y.num ((p : ℤ) - 2) (p : ℤ)) % (p : ℤ) := by
  have hfac : 0 ≤ modpow y.num (x.prime - 2) x.prime := by
    rw [hx]
    exact (emod_bounds hp _).1
  show Int.tmod (x.num * modpow y.num (x.prime - 2) x.prime) x.prime = _
  rw [Int.tmod_eq_emod (mul_nonneg hxn hfac) (by rw [hx]; exact_mod_cast hp.le), hx]

lemma fdiv_canonical {p : ℕ} (hp : 0 < p) {x : FieldElement} (y : FieldElement)
    (hx : x.prime = (p : ℤ)) (hxn : 0 ≤ x.num) : canonical p (x.fdiv y) := by
  refine ⟨hx, ?_⟩
  rw [show (x.fdiv y).num = (x.fdiv y).num from rfl, fdiv_num_emod hp y hx hxn]
  exact emod_bounds hp _

lemma fdiv_toZ {p : ℕ} (hp : Nat.Prime p) {x y : FieldElement}
    (hx : x.prime = (p : ℤ)) (hxn : 0 ≤ x.num) (hy : toZ p y ≠ 0) :
    toZ p (x.fdiv y) = toZ p x * (toZ p y)⁻¹ := by
  haveI : Fact p.Prime := ⟨hp⟩
  have h2 : 2 ≤ p := hp.two_le
  have hE : ((p : ℤ) - 2).toNat = p - 2 := by omega
  have hinv : ((y.num : ZMod p)) ^ (p - 2) = ((y.num : ZMod p))⁻¹ := by
    refine eq_inv_of_mul_eq_one_left ?_
    rw [← pow_succ, show p - 2 + 1 = p - 1 by omega]
    exact ZMod.pow_card_sub_one_eq_one hy
  show ((x.fdiv y).num : ZMod p) = _
  rw [fdiv_num_emod (by omega) y hx hxn, intCast_emod]
  push_cast
  rw [modpow_toZ, hE, hinv]
  rfl

/-! Bridge to Mathlib's affine Weierstrass curves. -/

lemma shortAffine_a1 {F : Type} [CommRing F] (A B : F) : (shortAffine F A B).a₁ = 0 := rfl

lemma shortAffine_a2 {F : Type} [CommRing F] (A B : F) : (shortAffine F A B).a₂ = 0 := rfl

lemma shortAffine_a3 {F : Type} [CommRing F] (A B : F) : (shortAffine F A B).a₃ = 0 := rfl

lemma shortAffine_a4 {F : Type} [CommRing F] (A B : F) : (shortAffine F A B).a₄ = A := rfl

lemma shortAffine_a6 {F : Type} [CommRing F] (A B : F) : (shortAffine F A B).a₆ = B := rfl

lemma shortAffine_equation_iff {F : Type} [CommRing F] (A B x y : F) :
    (shortAffine F A B).Equation x y ↔ y ^ 2 = x ^ 3 + A * x + B := by
  rw [WeierstrassCurve.Affine.equation_iff]
  rw [shortAffine_a1, shortAffine_a2, shortAffine_a3, shortAffine_a4, shortAffine_a6]
  constructor
  · intro h
    linear_combination h
  · intro h
    linear_combination h

lemma shortAffine_negY {F : Type} [CommRing F] (A B x y : F) :
    (shortAffine F A B).negY x y = -y := by
  rw [WeierstrassCurve.Affine.negY, shortAffine_a1, shortAffine_a3]
  ring

/-- The residues of the defining-equation value. -/
lemma defining_equation_toZ {p : ℕ} (hp5 : 5 ≤ p) {c : WeierstrassCurve}
    {x y : FieldElement} (hx : x.prime = (p : ℤ)) (hy : y.prime = (p : ℤ))
    (ha : c.a.prime = (p : ℤ)) :
    toZ p (c.defining_equation x y)
      = toZ p y ^ 2 - toZ p x ^ 3 - toZ p c.a * toZ p x - toZ p c.b := by
  have h2 : (2 : ℤ) < (p : ℤ) - 1 := by
    have : (5 : ℤ) ≤ (p : ℤ) := by exact_mod_cast hp5
    omega
  have h3 : (3 : ℤ) < (p : ℤ) - 1 := by
    have : (5 : ℤ) ≤ (p : ℤ) := by exact_mod_cast hp5
    omega
  show toZ p ((((y.pow 2).fsub (x.pow 3)).fsub (c.a.fmul x)).fsub c.b) = _
  rw [fsub_toZ c.b (show (((y.pow 2).fsub (x.pow 3)).fsub (c.a.fmul x)).prime = (p : ℤ) from hy),
    fsub_toZ (c.a.fmul x) (show ((y.pow 2).fsub (x.pow 3)).prime = (p : ℤ) from hy),
    fsub_toZ (x.pow 3) (show (y.pow 2).prime = (p : ℤ) from hy),
    pow_toZ hy (by norm_num) h2, pow_toZ hx (by norm_num) h3,
    fmul_toZ x ha]
  rfl

lemma defining_equation_prime {c : WeierstrassCurve} {x y : FieldElement} :
    (c.defining_equation x y).prime = y.prime := rfl

lemma defining_equation_canonical {p : ℕ} (hp : 0 < p) {c : WeierstrassCurve}
    {x y : FieldElement} (hy : y.prime = (p : ℤ)) :
    canonical p (c.defining_equation x y) :=
  fsub_canonical hp c.b (show (((y.pow 2).fsub (x.pow 3)).fsub (c.a.fmul x)).prime = (p : ℤ) from hy)

/-- The validation predicate of `new_point`, expressed over `ZMod p`. -/
lemma defining_equation_eq_zero_iff {p : ℕ} (hp5 : 5 ≤ p) {c : WeierstrassCurve}
    {x y : FieldElement} (hx : x.prime = (p : ℤ)) (hy : y.prime = (p : ℤ))
    (ha : c.a.prime = (p : ℤ)) :
    c.defining_equation x y = FieldElement.zero x.prime ↔
      toZ p y ^ 2 = toZ p x ^ 3 + toZ p c.a * toZ p x + toZ p c.b := by
  have hp0 : 0 < p := by omega
  constructor
  · intro h
    have hnum : (c.defining_equation x y).num = 0 := congrArg FieldElement.num h
    have hz : toZ p (c.defining_equation x y) = 0 := by
      show ((c.defining_equation x y).num : ZMod p) = 0
      rw [hnum]
      exact Int.cast_zero
    rw [defining_equation_toZ hp5 hx hy ha] at hz
    linear_combination hz
  · intro h
    have hz : toZ p (c.defining_equation x y) = 0 := by
      rw [defining_equation_toZ hp5 hx hy ha]
      linear_combination h
    have hnum : (c.defining_equation x y).num = 0 :=
      (toZ_eq_zero_iff hp0 (defining_equation_canonical hp0 hy)).mp hz
    calc c.defining_equation x y
        = ⟨(c.defining_equation x y).num, (c.defining_equation x y).prime⟩ := rfl
      _ = ⟨0, x.prime⟩ := by rw [hnum, defining_equation_prime, hy, hx]
      _ = FieldElement.zero x.prime := rfl

lemma new_point_ok_of {c : WeierstrassCurve} {x y : FieldElement}
    (h : c.defining_equation x y = FieldElement.zero x.prime) :
    Point.new_point c x y = .ok ⟨Coords.point x y, c⟩ := by
  simp [Point.new_point, h]

lemma new_point_err_of {c : WeierstrassCurve} {x y : FieldElement}
    (h : c.defining_equation x y ≠ FieldElement.zero x.prime) :
    Point.new_point c x y = .error .InvalidPoint := by
  simp [Point.new_point, h]

/-! Spec-side group-law formulas over the field `ZMod p` (from the addition
table of the specification). -/

/-- Chord slope `(y2 − y1) / (x2 − x1)` (with field division written via the
inverse). -/
def slopeZ (p : ℕ) (X1 Y1 X2 Y2 : ZMod p) : ZMod p := (Y2 - Y1) * (X2 - X1)⁻¹

/-- Result abscissa `slope² − x1 − x2`. -/
def addXZ (p : ℕ) (X1 X2 L : ZMod p) : ZMod p := L ^ 2 - X1 - X2

/-- Result ordinate `slope·(x1 − x3) − y1`. -/
def addYZ (p : ℕ) (X1 Y1 X3 L : ZMod p) : ZMod p := L * (X1 - X3) - Y1

/-- Tangent slope `(3·x1² + a) / (2·y1)`. -/
def doubleSlopeZ (p : ℕ) (A X1 Y1 : ZMod p) : ZMod p := (3 * X1 ^ 2 + A) * (2 * Y1)⁻¹

/-- Doubling abscissa `slope² − 2·x1`. -/
def doubleXZ (p : ℕ) (X1 L : ZMod p) : ZMod p := L ^ 2 - 2 * X1

/-- The distinct-abscissa branch of `Add for Point` computes exactly the
chord-formula point, and its final `.unwrap()` succeeds, whenever both inputs
are canonical and on the curve and `p ≥ 5`. -/
lemma add_distinct_eq {p : ℕ} (hp : Nat.Prime p) (hp5 : 5 ≤ p) {c : WeierstrassCurve}
    {x1 y1 x2 y2 : FieldElement}
    (hca : c.a.prime = (p : ℤ)) (hcb : c.b.prime = (p : ℤ))
    (hx1 : canonical p x1) (hy1 : canonical p y1)
    (hx2 : canonical p x2) (hy2 : canonical p y2)
    (h1 : c.defining_equation x1 y1 = FieldElement.zero x1.prime)
    (h2 : c.defining_equation x2 y2 = FieldElement.zero x2.prime)
    (hne : x1.num ≠ x2.num) :
    Point.add ⟨Coords.point x1 y1, c⟩ ⟨Coords.point x2 y2, c⟩ =
      .ok ⟨Coords.point
        (ofZ p (addXZ p (toZ p x1) (toZ p x2)
          (slopeZ p (toZ p x1) (toZ p y1) (toZ p x2) (toZ p y2))))
        (ofZ p (addYZ p (toZ p x1) (toZ p y1)
          (addXZ p (toZ p x1) (toZ p x2)
            (slopeZ p (toZ p x1) (toZ p y1) (toZ p x2) (toZ p y2)))
          (slopeZ p (toZ p x1) (toZ p y1) (toZ p x2) (toZ p y2)))), c⟩ := by
  haveI : Fact p.Prime := ⟨hp⟩
  haveI : NeZero p := ⟨hp.pos.ne'⟩
  have hp0 : 0 < p := hp.pos
  have h2lt : (2 : ℤ) < (p : ℤ) - 1 := by
    have : (5 : ℤ) ≤ (p : ℤ) := by exact_mod_cast hp5
    omega
  have hxne : x1 ≠ x2 := fun h => hne (congrArg FieldElement.num h)
  have hX12 : toZ p x1 ≠ toZ p x2 :=
    fun h => hne (canonical_inj hx1.2.1 hx1.2.2 hx2.2.1 hx2.2.2 h)
  -- the intermediate field elements computed by the branch
  set s := (y2.fsub y1).fdiv (x2.fsub x1) with hs
  set x3 := ((s.pow 2).fsub x1).fsub x2 with hx3
  set y3 := (s.fmul (x1.fsub x3)).fsub y1 with hy3
  have hsprime : s.prime = (p : ℤ) := hy2.1
  have hscanon : canonical p s :=
    fdiv_canonical hp0 _ hy2.1 (fsub_canonical hp0 y1 hy2.1).2.1
  have hstoZ : toZ p s = slopeZ p (toZ p x1) (toZ p y1) (toZ p x2) (toZ p y2) := by
    rw [hs, fdiv_toZ hp (show (y2.fsub y1).prime = (p : ℤ) from hy2.1)
      (fsub_canonical hp0 y1 hy2.1).2.1
      (by rw [fsub_toZ x1 hx2.1]; exact sub_ne_zero.mpr (Ne.symm hX12)),
      fsub_toZ y1 hy2.1, fsub_toZ x1 hx2.1]
    rfl
  have hx3canon : canonical p x3 := fsub_canonical hp0 x2 hsprime
  have hx3toZ : toZ p x3 = addXZ p (toZ p x1) (toZ p x2) (toZ p s) := by
    rw [hx3, fsub_toZ x2 (show ((s.pow 2).fsub x1).prime = (p : ℤ) from hsprime),
      fsub_toZ x1 (show (s.pow 2).prime = (p : ℤ) from hsprime),
      pow_toZ hsprime (by norm_num) h2lt]
    rfl
  have hy3canon : canonical p y3 := fsub_canonical hp0 y1 hsprime
  have hy3toZ : toZ p y3 = addYZ p (toZ p x1) (toZ p y1) (toZ p x3) (toZ p s) := by
    rw [hy3, fsub_toZ y1 (show (s.fmul (x1.fsub x3)).prime = (p : ℤ) from hsprime),
      fmul_toZ _ hsprime, fsub_toZ x3 hx1.1]
    rfl
  -- on-curve hypotheses over ZMod p
  have hE1 : toZ p y1 ^ 2 = toZ p x1 ^ 3 + toZ p c.a * toZ p x1 + toZ p c.b :=
    (defining_equation_eq_zero_iff hp5 hx1.1 hy1.1 hca).mp h1
  have hE2 : toZ p y2 ^ 2 = toZ p x2 ^ 3 + toZ p c.a * toZ p x2 + toZ p c.b :=
    (defining_equation_eq_zero_iff hp5 hx2.1 hy2.1 hca).mp h2
  have hW1 : (shortAffine (ZMod p) (toZ p c.a) (toZ p c.b)).Equation (toZ p x1) (toZ p y1) :=
    (shortAffine_equation_iff _ _ _ _).mpr hE1
  have hW2 : (shortAffine (ZMod p) (toZ p c.a) (toZ p c.b)).Equation (toZ p x2) (toZ p y2) :=
    (shortAffine_equation_iff _ _ _ _).mpr hE2
  have hS : (shortAffine (ZMod p) (toZ p c.a) (toZ p c.b)).slope
      (toZ p x1) (toZ p x2) (toZ p y1) (toZ p y2)
      = slopeZ p (toZ p x1) (toZ p y1) (toZ p x2) (toZ p y2) := by
    rw [WeierstrassCurve.Affine.slope_of_X_ne hX12, slopeZ, div_eq_mul_inv,
      ← neg_sub (toZ p y2) (toZ p y1), ← neg_sub (toZ p x2) (toZ p x1), inv_neg, neg_mul_neg]
  have hWadd := WeierstrassCurve.Affine.equation_add hW1 hW2 (fun h => absurd h hX12)
  have haddX : (shortAffine (ZMod p) (toZ p c.a) (toZ p c.b)).addX (toZ p x1) (toZ p x2)
      ((shortAffine (ZMod p) (toZ p c.a) (toZ p c.b)).slope
        (toZ p x1) (toZ p x2) (toZ p y1) (toZ p y2))
      = addXZ p (toZ p x1) (toZ p x2)
        (slopeZ p (toZ p x1) (toZ p y1) (toZ p x2) (toZ p y2)) := by
    rw [hS, WeierstrassCurve.Affine.addX, shortAffine_a1, shortAffine_a2, addXZ]
    ring
  have haddY : (shortAffine (ZMod p) (toZ p c.a) (toZ p c.b)).addY (toZ p x1) (toZ p x2)
      (toZ p y1)
      ((shortAffine (ZMod p) (toZ p c.a) (toZ p c.b)).slope
        (toZ p x1) (toZ p x2) (toZ p y1) (toZ p y2))
      = addYZ p (toZ p x1) (toZ p y1)
        (addXZ p (toZ p x1) (toZ p x2)
          (slopeZ p (toZ p x1) (toZ p y1) (toZ p x2) (toZ p y2)))
        (slopeZ p (toZ p x1) (toZ p y1) (toZ p x2) (toZ p y2)) := by
    rw [WeierstrassCurve.Affine.addY, WeierstrassCurve.Affine.negAddY,
      WeierstrassCurve.Affine.negY, shortAffine_a1, shortAffine_a3, haddX, hS, addYZ]
    ring
  rw [haddX, haddY] at hWadd
  have hE3 := (shortAffine_equation_iff _ _ _ _).mp hWadd
  -- the computed point is on the curve
  have honcurve : c.defining_equation x3 y3 = FieldElement.zero x3.prime := by
    rw [defining_equation_eq_zero_iff hp5 hx3canon.1 hy3canon.1 hca, hy3toZ, hx3toZ, hstoZ]
    exact hE3
  have hnp : Point.new_point c x3 y3 = .ok ⟨Coords.point x3 y3, c⟩ := new_point_ok_of honcurve
  -- evaluate the branch
  have hx3val : x3 = ofZ p (addXZ p (toZ p x1) (toZ p x2)
      (slopeZ p (toZ p x1) (toZ p y1) (toZ p x2) (toZ p y2))) :=
    eq_ofZ hx3canon (by rw [hx3toZ, hstoZ])
  have hy3val : y3 = ofZ p (addYZ p (toZ p x1) (toZ p y1)
      (addXZ p (toZ p x1) (toZ p x2)
        (slopeZ p (toZ p x1) (toZ p y1) (toZ p x2) (toZ p y2)))
      (slopeZ p (toZ p x1) (toZ p y1) (toZ p x2) (toZ p y2))) :=
    eq_ofZ hy3canon (by rw [hy3toZ, hstoZ, hx3toZ, hstoZ])
  calc Point.add ⟨Coords.point x1 y1, c⟩ ⟨Coords.point x2 y2, c⟩
      = .ok ⟨Coords.point x3 y3, c⟩ := by
        simp only [Point.add]
        rw [if_neg (show ¬ (c ≠ c) from fun h => h rfl)]
        rw [if_neg hxne, hnp]
    _ = _ := by rw [hx3val, hy3val]

lemma two_ne_zero_zmod {p : ℕ} (hp5 : 5 ≤ p) : (2 : ZMod p) ≠ 0 := by
  intro h
  have h2 : ((2 : ℕ) : ZMod p) = 0 := by exact_mod_cast h
  have hdvd := (ZMod.natCast_zmod_eq_zero_iff_dvd 2 p).mp h2
  have := Nat.le_of_dvd (by norm_num) hdvd
  omega

/-- The doubling branch of `Add for Point` computes exactly the tangent-formula
point, and its final `.unwrap()` succeeds, whenever the input is canonical, on
the curve, has nonzero ordinate, and `p ≥ 5`. -/
lemma add_double_eq {p : ℕ} (hp : Nat.Prime p) (hp5 : 5 ≤ p) {c : WeierstrassCurve}
    {x1 y1 : FieldElement}
    (hca : c.a.prime = (p : ℤ)) (hcb : c.b.prime = (p : ℤ))
    (hx1 : canonical p x1) (hy1 : canonical p y1)
    (h1 : c.defining_equation x1 y1 = FieldElement.zero x1.prime)
    (hynz : y1.num ≠ 0) :
    Point.add ⟨Coords.point x1 y1, c⟩ ⟨Coords.point x1 y1, c⟩ =
      .ok ⟨Coords.point
        (ofZ p (doubleXZ p (toZ p x1)
          (doubleSlopeZ p (toZ p c.a) (toZ p x1) (toZ p y1))))
        (ofZ p (addYZ p (toZ p x1) (toZ p y1)
          (doubleXZ p (toZ p x1)
            (doubleSlopeZ p (toZ p c.a) (toZ p x1) (toZ p y1)))
          (doubleSlopeZ p (toZ p c.a) (toZ p x1) (toZ p y1)))), c⟩ := by
  haveI : Fact p.Prime := ⟨hp⟩
  haveI : NeZero p := ⟨hp.pos.ne'⟩
  have hp0 : 0 < p := hp.pos
  have h2lt : (2 : ℤ) < (p : ℤ) - 1 := by
    have : (5 : ℤ) ≤ (p : ℤ) := by exact_mod_cast hp5
    omega
  have hY1ne : toZ p y1 ≠ 0 := fun h => hynz ((toZ_eq_zero_iff hp0 hy1).mp h)
  have hzfalse : ¬ (y1.is_zero = true) := by rw [is_zero_iff]; exact hynz
  -- the intermediate field elements computed by the branch
  set num0 := ((FieldElement.new 3 c.a.prime).fmul (x1.pow 2)).fadd c.a with hnum0
  set den0 := (FieldElement.new 2 c.a.prime).fmul y1 with hden0
  set s := num0.fdiv den0 with hs
  set x3 := (s.pow 2).fsub ((FieldElement.new 2 c.a.prime).fmul x1) with hx3
  set y3 := (s.fmul (x1.fsub x3)).fsub y1 with hy3
  have hnum0prime : num0.prime = (p : ℤ) := hca
  have hnum0toZ : toZ p num0 = 3 * toZ p x1 ^ 2 + toZ p c.a := by
    rw [hnum0, fadd_toZ c.a (show ((FieldElement.new 3 c.a.prime).fmul (x1.pow 2)).prime = (p : ℤ) from hca),
      fmul_toZ _ (show (FieldElement.new 3 c.a.prime).prime = (p : ℤ) from hca),
      pow_toZ hx1.1 (by norm_num) h2lt]
    show ((3 : ℤ) : ZMod p) * toZ p x1 ^ 2 + toZ p c.a = _
    push_cast
    ring
  have hden0toZ : toZ p den0 = 2 * toZ p y1 := by
    rw [hden0, fmul_toZ _ (show (FieldElement.new 2 c.a.prime).prime = (p : ℤ) from hca)]
    show ((2 : ℤ) : ZMod p) * toZ p y1 = _
    push_cast
    ring
  have hden0ne : toZ p den0 ≠ 0 := by
    rw [hden0toZ]
    exact mul_ne_zero (two_ne_zero_zmod hp5) hY1ne
  have hsprime : s.prime = (p : ℤ) := hca
  have hnum0nonneg : 0 ≤ num0.num :=
    (fadd_canonical hp0 c.a
      (show ((FieldElement.new 3 c.a.prime).fmul (x1.pow 2)).prime = (p : ℤ) from hca)).2.1
  have hscanon : canonical p s :=
    fdiv_canonical hp0 _ hnum0prime hnum0nonneg
  have hstoZ : toZ p s = doubleSlopeZ p (toZ p c.a) (toZ p x1) (toZ p y1) := by
    rw [hs, fdiv_toZ hp hnum0prime hnum0nonneg hden0ne,
      hnum0toZ, hden0toZ]
    rfl
  have hx3canon : canonical p x3 := fsub_canonical hp0 _ hsprime
  have hx3toZ : toZ p x3 = doubleXZ p (toZ p x1) (toZ p s) := by
    rw [hx3, fsub_toZ _ (show (s.pow 2).prime = (p : ℤ) from hsprime),
      pow_toZ hsprime (by norm_num) h2lt,
      fmul_toZ _ (show (FieldElement.new 2 c.a.prime).prime = (p : ℤ) from hca)]
    show toZ p s ^ 2 - ((2 : ℤ) : ZMod p) * toZ p x1 = _
    push_cast
    rw [doubleXZ]
  have hy3canon : canonical p y3 := fsub_canonical hp0 y1 hsprime
  have hy3toZ : toZ p y3 = addYZ p (toZ p x1) (toZ p y1) (toZ p x3) (toZ p s) := by
    rw [hy3, fsub_toZ y1 (show (s.fmul (x1.fsub x3)).prime = (p : ℤ) from hsprime),
      fmul_toZ _ hsprime, fsub_toZ x3 hx1.1]
    rfl
  -- on-curve hypothesis over ZMod p
  have hE1 : toZ p y1 ^ 2 = toZ p x1 ^ 3 + toZ p c.a * toZ p x1 + toZ p c.b :=
    (defining_equation_eq_zero_iff hp5 hx1.1 hy1.1 hca).mp h1
  have hW1 : (shortAffine (ZMod p) (toZ p c.a) (toZ p c.b)).Equation (toZ p x1) (toZ p y1) :=
    (shortAffine_equation_iff _ _ _ _).mpr hE1
  have hneg : toZ p y1 ≠ (shortAffine (ZMod p) (toZ p c.a) (toZ p c.b)).negY
      (toZ p x1) (toZ p y1) := by
    rw [shortAffine_negY]
    intro h
    have h20 : (2 : ZMod p) * toZ p y1 = 0 := by linear_combination h
    exact mul_ne_zero (two_ne_zero_zmod hp5) hY1ne h20
  have hS : (shortAffine (ZMod p) (toZ p c.a) (toZ p c.b)).slope
      (toZ p x1) (toZ p x1) (toZ p y1) (toZ p y1)
      = doubleSlopeZ p (toZ p c.a) (toZ p x1) (toZ p y1) := by
    rw [WeierstrassCurve.Affine.slope_of_Y_ne rfl hneg, shortAffine_negY,
      shortAffine_a1, shortAffine_a2, shortAffine_a4, doubleSlopeZ, div_eq_mul_inv]
    rw [show 3 * toZ p x1 ^ 2 + 2 * 0 * toZ p x1 + toZ p c.a - 0 * toZ p y1
        = 3 * toZ p x1 ^ 2 + toZ p c.a by ring,
      show toZ p y1 - -toZ p y1 = 2 * toZ p y1 by ring]
  have hWadd := WeierstrassCurve.Affine.equation_add hW1 hW1 (fun _ => hneg)
  have haddX : (shortAffine (ZMod p) (toZ p c.a) (toZ p c.b)).addX (toZ p x1) (toZ p x1)
      ((shortAffine (ZMod p) (toZ p c.a) (toZ p c.b)).slope
        (toZ p x1) (toZ p x1) (toZ p y1) (toZ p y1))
      = doubleXZ p (toZ p x1) (doubleSlopeZ p (toZ p c.a) (toZ p x1) (toZ p y1)) := by
    rw [hS, WeierstrassCurve.Affine.addX, shortAffine_a1, shortAffine_a2, doubleXZ]
    ring
  have haddY : (shortAffine (ZMod p) (toZ p c.a) (toZ p c.b)).addY (toZ p x1) (toZ p x1)
      (toZ p y1)
      ((shortAffine (ZMod p) (toZ p c.a) (toZ p c.b)).slope
        (toZ p x1) (toZ p x1) (toZ p y1) (toZ p y1))
      = addYZ p (toZ p x1) (toZ p y1)
        (doubleXZ p (toZ p x1) (doubleSlopeZ p (toZ p c.a) (toZ p x1) (toZ p y1)))
        (doubleSlopeZ p (toZ p c.a) (toZ p x1) (toZ p y1)) := by
    rw [WeierstrassCurve.Affine.addY, WeierstrassCurve.Affine.negAddY,
      WeierstrassCurve.Affine.negY, shortAffine_a1, shortAffine_a3, haddX, hS, addYZ]
    ring
  rw [haddX, haddY] at hWadd
  have hE3 := (shortAffine_equation_iff _ _ _ _).mp hWadd
  have honcurve : c.defining_equation x3 y3 = FieldElement.zero x3.prime := by
    rw [defining_equation_eq_zero_iff hp5 hx3canon.1 hy3canon.1 hca, hy3toZ, hx3toZ, hstoZ]
    exact hE3
  have hnp : Point.new_point c x3 y3 = .ok ⟨Coords.point x3 y3, c⟩ := new_point_ok_of honcurve
  have hx3val : x3 = ofZ p (doubleXZ p (toZ p x1)
      (doubleSlopeZ p (toZ p c.a) (toZ p x1) (toZ p y1))) :=
    eq_ofZ hx3canon (by rw [hx3toZ, hstoZ])
  have hy3val : y3 = ofZ p (addYZ p (toZ p x1) (toZ p y1)
      (doubleXZ p (toZ p x1) (doubleSlopeZ p (toZ p c.a) (toZ p x1) (toZ p y1)))
      (doubleSlopeZ p (toZ p c.a) (toZ p x1) (toZ p y1))) :=
    eq_ofZ hy3canon (by rw [hy3toZ, hx3toZ, hstoZ])
  calc Point.add ⟨Coords.point x1 y1, c⟩ ⟨Coords.point x1 y1, c⟩
      = .ok ⟨Coords.point x3 y3, c⟩ := by
        simp only [Point.add]
        rw [if_neg (show ¬ (c ≠ c) from fun h => h rfl)]
        rw [if_pos trivial, if_pos trivial, if_neg hzfalse, hnp]
    _ = _ := by rw [hx3val, hy3val]

/-! Remaining branches of `Add for Point` and the assembled closure result. -/

lemma infinity_add {c : WeierstrassCurve} (oc : Coords) :
    Point.add ⟨Coords.infinity, c⟩ ⟨oc, c⟩ = .ok ⟨oc, c⟩ := by
  cases oc <;> (simp only [Point.add]; rw [if_neg (show ¬ (c ≠ c) from fun h => h rfl)])

lemma add_infinity {c : WeierstrassCurve} (oc : Coords) :
    Point.add ⟨oc, c⟩ ⟨Coords.infinity, c⟩ = .ok ⟨oc, c⟩ := by
  cases oc <;> (simp only [Point.add]; rw [if_neg (show ¬ (c ≠ c) from fun h => h rfl)])

lemma add_vertical_eq {c : WeierstrassCurve} {x2 y1 y2 : FieldElement} (hy : y1 ≠ y2) :
    Point.add ⟨Coords.point x2 y1, c⟩ ⟨Coords.point x2 y2, c⟩ =
      .ok (Point.new_infinity c) := by
  simp only [Point.add]
  rw [if_neg (show ¬ (c ≠ c) from fun h => h rfl), if_pos trivial, if_neg hy]

lemma add_tangent_vertical_eq {c : WeierstrassCurve} {x1 y1 : FieldElement}
    (hz : y1.num = 0) :
    Point.add ⟨Coords.point x1 y1, c⟩ ⟨Coords.point x1 y1, c⟩ =
      .ok (Point.new_infinity c) := by
  simp only [Point.add]
  rw [if_neg (show ¬ (c ≠ c) from fun h => h rfl), if_pos trivial, if_pos trivial,
    if_pos (is_zero_iff.mpr hz)]

/-- A point bound to the curve `c` whose affine coordinates (if any) are
canonical residues satisfying the defining equation. -/
def validPoint (p : ℕ) (c : WeierstrassCurve) (P : Point) : Prop :=
  P.curve = c ∧
    ∀ x y, P.coords = Coords.point x y →
      canonical p x ∧ canonical p y ∧
        c.defining_equation x y = FieldElement.zero x.prime

/-- Closure of the group law as implemented: for `p ≥ 5` and canonical on-curve
operands on the same curve, every branch of `Add for Point` produces an `ok`
result (no `assert!` failure, no `.unwrap()` failure). -/
lemma add_ok {p : ℕ} (hp : Nat.Prime p) (hp5 : 5 ≤ p) {c : WeierstrassCurve}
    (hca : c.a.prime = (p : ℤ)) (hcb : c.b.prime = (p : ℤ))
    {P1 P2 : Point} (h1 : validPoint p c P1) (h2 : validPoint p c P2) :
    ∃ Q, P1.add P2 = .ok Q := by
  obtain ⟨coords1, curve1⟩ := P1
  obtain ⟨coords2, curve2⟩ := P2
  obtain ⟨hc1, hv1⟩ := h1
  obtain ⟨hc2, hv2⟩ := h2
  cases hc1
  cases hc2
  cases coords1 with
  | infinity => exact ⟨_, infinity_add coords2⟩
  | point x1 y1 =>
    cases coords2 with
    | infinity => exact ⟨_, add_infinity (Coords.point x1 y1)⟩
    | point x2 y2 =>
      obtain ⟨hx1, hy1, honc1⟩ := hv1 x1 y1 rfl
      obtain ⟨hx2, hy2, honc2⟩ := hv2 x2 y2 rfl
      by_cases hx : x1 = x2
      · subst hx
        by_cases hy : y1 = y2
        · subst hy
          by_cases hz : y1.num = 0
          · exact ⟨_, add_tangent_vertical_eq hz⟩
          · exact ⟨_, add_double_eq hp hp5 hca hcb hx1 hy1 honc1 hz⟩
        · exact ⟨_, add_vertical_eq hy⟩
      · have hne : x1.num ≠ x2.num := fun hnum => hx (by
          calc x1 = ⟨x1.num, x1.prime⟩ := rfl
            _ = ⟨x2.num, x2.prime⟩ := by rw [hnum, hx1.1, hx2.1]
            _ = x2 := rfl)
        exact ⟨_, add_distinct_eq hp hp5 hca hcb hx1 hy1 hx2 hy2 honc1 honc2 hne⟩

/-! Termination of the double-and-add loop. -/

lemma mulLoopFuel_isSome (n : Nat) : ∀ (coeff : Int), 0 ≤ coeff → coeff.toNat ≤ n →
    ∀ current result, (Point.mulLoopFuel (n + 1) coeff current result).isSome = true := by
  induction n with
  | zero =>
    intro coeff h0 hle current result
    have hz : coeff = 0 := by omega
    subst hz
    simp [Point.mulLoopFuel]
  | succ n ih =>
    intro coeff h0 hle current result
    by_cases hz : coeff = 0
    · subst hz
      simp [Point.mulLoopFuel]
    · show (Point.mulLoopFuel (n + 1 + 1) coeff current result).isSome = true
      rw [show Point.mulLoopFuel (n + 1 + 1) coeff current result =
          (if coeff = 0 then some (.ok result)
           else
            match (if coeff % 2 ≠ 0 then result.add current else .ok result) with
            | .error e => some (.error e)
            | .ok result2 =>
              match current.add current with
              | .error e => some (.error e)
              | .ok current2 =>
                Point.mulLoopFuel (n + 1) (Int.fdiv coeff 2) current2 result2) from rfl]
      rw [if_neg hz]
      have hfd : Int.fdiv coeff 2 = coeff / 2 := Int.fdiv_eq_ediv coeff (by norm_num)
      cases hr : (if coeff % 2 ≠ 0 then result.add current else .ok result) with
      | error e => rfl
      | ok result2 =>
        cases hc : current.add current with
        | error e => rfl
        | ok current2 =>
          show (Point.mulLoopFuel (n + 1) (Int.fdiv coeff 2) current2 result2).isSome = true
          exact ih (Int.fdiv coeff 2) (by rw [hfd]; omega) (by rw [hfd]; omega)
            current2 result2

/-! Claim theorems. -/

set_option maxRecDepth 8000

/-- C2: division by the zero field element raises no error at all: the `Div`
impl is total and `(3 mod 7) / (0 mod 7)` evaluates to the numeric field
element `0 mod 7`, instead of the `DivisionByZero` failure the claim
describes. -/
theorem c2_div_by_zero_returns_numeric_zero :
    FieldElement.fdiv (FieldElement.new 3 7) (FieldElement.new 0 7) =
      FieldElement.new 0 7 := by decide

/-- C3: exponentiating the zero element of `GF(7)` by `p − 1 = 6` yields `1`,
not the `0` the claim requires: `pow` first reduces the exponent modulo
`p − 1`, so `0^6` is computed as `0^0 = 1`. -/
theorem c3_zero_pow_p_sub_one_is_one :
    FieldElement.pow (FieldElement.new 0 7) 6 = FieldElement.new 1 7 := by decide

/-- C4 counterexample: the public constructor stores its argument unreduced, so
`FieldElement::new(-1, 7)` has value `-1`, not a value in `[0, prime)`. -/
theorem c4_constructor_not_canonical :
    ¬ (0 ≤ (FieldElement.new (-1) 7).num ∧
        (FieldElement.new (-1) 7).num < (FieldElement.new (-1) 7).prime) := by decide

/-- C4 (amended): with a positive modulus, every arithmetic operation
re-normalizes its result to the canonical least nonnegative residue — `add`,
`sub`, `mul` and `pow` unconditionally, and `div` whenever the dividend's
stored value is nonnegative (as it is for canonically stored dividends); only
the constructor stores values unreduced. -/
theorem c4_ops_canonical {p : ℕ} (hp : 0 < p) (x y : FieldElement) (e : ℤ)
    (hx : x.prime = (p : ℤ)) :
    canonical p (x.fadd y) ∧ canonical p (x.fsub y) ∧ canonical p (x.fmul y) ∧
      canonical p (x.pow e) ∧ (0 ≤ x.num → canonical p (x.fdiv y)) :=
  ⟨fadd_canonical hp y hx, fsub_canonical hp y hx, fmul_canonical hp y hx,
    pow_canonical hp e hx, fun hn => fdiv_canonical hp y hx hn⟩

/-- C4 witness: the amended statement instantiated at `p = 7`, `x = 3 mod 7`,
`y = 5 mod 7`, `e = 4`. -/
theorem c4_witness :
    canonical 7 ((FieldElement.new 3 7).fadd (FieldElement.new 5 7)) ∧
    canonical 7 ((FieldElement.new 3 7).fsub (FieldElement.new 5 7)) ∧
    canonical 7 ((FieldElement.new 3 7).fmul (FieldElement.new 5 7)) ∧
    canonical 7 ((FieldElement.new 3 7).pow 4) ∧
    (0 ≤ (FieldElement.new 3 7).num →
      canonical 7 ((FieldElement.new 3 7).fdiv (FieldElement.new 5 7))) :=
  c4_ops_canonical (by decide) (FieldElement.new 3 7) (FieldElement.new 5 7) 4 (by decide)

/-- C5: adding two valid points bound to different curves hits the `assert!`
in the `Add` impl — a process abort — rather than returning a recoverable
`DifferentCurves` error: `(192,105)` on `y² = x³ + 7` and `(222,1)` on
`y² = x³ + 5x + 7` (both over `GF(223)`) are valid on their own curves, and
adding them aborts. -/
theorem c5_different_curves_aborts :
    ((⟨FieldElement.new 0 223, FieldElement.new 7 223⟩ : WeierstrassCurve).defining_equation
        (FieldElement.new 192 223) (FieldElement.new 105 223) =
      FieldElement.zero (FieldElement.new 192 223).prime) ∧
    ((⟨FieldElement.new 5 223, FieldElement.new 7 223⟩ : WeierstrassCurve).defining_equation
        (FieldElement.new 222 223) (FieldElement.new 1 223) =
      FieldElement.zero (FieldElement.new 222 223).prime) ∧
    Point.add
      ⟨Coords.point (FieldElement.new 192 223) (FieldElement.new 105 223),
        ⟨FieldElement.new 0 223, FieldElement.new 7 223⟩⟩
      ⟨Coords.point (FieldElement.new 222 223) (FieldElement.new 1 223),
        ⟨FieldElement.new 5 223, FieldElement.new 7 223⟩⟩
      = .error Panic.differentCurvesAssert :=
  ⟨by decide, by decide, by decide⟩

/-- C10: the double-and-add loop of `Mul for Point` terminates for every
nonnegative coefficient: some finite fuel makes the step-indexed loop body
return (either the final point or a propagated panic), because the arithmetic
right shift strictly shrinks a nonnegative coefficient towards zero. -/
theorem c10_mul_loop_terminates (coeff : Int) (current result : Point)
    (h : 0 ≤ coeff) :
    ∃ fuel, (Point.mulLoopFuel fuel coeff current result).isSome = true :=
  ⟨coeff.toNat + 1, mulLoopFuel_isSome coeff.toNat coeff h le_rfl current result⟩

/-- C10 witness: the loop finishes on coefficient `5` starting from the point
`(47, 71)` on `y² = x³ + 7` over `GF(223)`. -/
theorem c10_witness :
    ∃ fuel, (Point.mulLoopFuel fuel 5
      ⟨Coords.point (FieldElement.new 47 223) (FieldElement.new 71 223),
        ⟨FieldElement.new 0 223, FieldElement.new 7 223⟩⟩
      (Point.new_infinity ⟨FieldElement.new 0 223, FieldElement.new 7 223⟩)).isSome
        = true :=
  c10_mul_loop_terminates 5
    ⟨Coords.point (FieldElement.new 47 223) (FieldElement.new 71 223),
      ⟨FieldElement.new 0 223, FieldElement.new 7 223⟩⟩
    (Point.new_infinity ⟨FieldElement.new 0 223, FieldElement.new 7 223⟩)
    (by decide)

/-- C1 counterexample: the `.unwrap()` inside `Add for Point` is reachable
with operands accepted by `new_point`.  Over `GF(3)` with `a = b = 0`, the
canonical on-curve point `(1, 1)` panics when doubled (the exponent reduction
in `pow` turns squaring into the zeroth power); over `GF(223)` with
`y² = x³ + 7`, the on-curve points `(-31, 105)` and `(192, 105)` (equal
residues, different stored values) panic when added. -/
theorem c1_unwrap_reachable :
    ((⟨FieldElement.new 0 3, FieldElement.new 0 3⟩ : WeierstrassCurve).defining_equation
        (FieldElement.new 1 3) (FieldElement.new 1 3) =
      FieldElement.zero (FieldElement.new 1 3).prime) ∧
    Point.add
      ⟨Coords.point (FieldElement.new 1 3) (FieldElement.new 1 3),
        ⟨FieldElement.new 0 3, FieldElement.new 0 3⟩⟩
      ⟨Coords.point (FieldElement.new 1 3) (FieldElement.new 1 3),
        ⟨FieldElement.new 0 3, FieldElement.new 0 3⟩⟩
      = .error Panic.unwrapFailed ∧
    ((⟨FieldElement.new 0 223, FieldElement.new 7 223⟩ : WeierstrassCurve).defining_equation
        (FieldElement.new (-31) 223) (FieldElement.new 105 223) =
      FieldElement.zero (FieldElement.new (-31) 223).prime) ∧
    ((⟨FieldElement.new 0 223, FieldElement.new 7 223⟩ : WeierstrassCurve).defining_equation
        (FieldElement.new 192 223) (FieldElement.new 105 223) =
      FieldElement.zero (FieldElement.new 192 223).prime) ∧
    Point.add
      ⟨Coords.point (FieldElement.new (-31) 223) (FieldElement.new 105 223),
        ⟨FieldElement.new 0 223, FieldElement.new 7 223⟩⟩
      ⟨Coords.point (FieldElement.new 192 223) (FieldElement.new 105 223),
        ⟨FieldElement.new 0 223, FieldElement.new 7 223⟩⟩
      = .error Panic.unwrapFailed :=
  ⟨by decide, by decide, by decide, by decide, by decide⟩

/-- C1 (amended): for a prime `p ≥ 5` and two affine points with canonical
coordinates on the same curve that satisfy the defining equation, every branch
of `Add for Point` succeeds: the computed `(x3, y3)` always satisfy the
defining equation, so neither the curve `assert!` nor the `.unwrap()` on
`new_point` can fire. -/
theorem c1_add_on_curve_ok {p : ℕ} (hp : Nat.Prime p) (hp5 : 5 ≤ p)
    {c : WeierstrassCurve} {x1 y1 x2 y2 : FieldElement}
    (hca : c.a.prime = (p : ℤ)) (hcb : c.b.prime = (p : ℤ))
    (hx1 : canonical p x1) (hy1 : canonical p y1)
    (hx2 : canonical p x2) (hy2 : canonical p y2)
    (h1 : c.defining_equation x1 y1 = FieldElement.zero x1.prime)
    (h2 : c.defining_equation x2 y2 = FieldElement.zero x2.prime) :
    ∃ Q, Point.add ⟨Coords.point x1 y1, c⟩ ⟨Coords.point x2 y2, c⟩ = .ok Q :=
  add_ok hp hp5 hca hcb
    ⟨rfl, fun x y h => by cases h; exact ⟨hx1, hy1, h1⟩⟩
    ⟨rfl, fun x y h => by cases h; exact ⟨hx2, hy2, h2⟩⟩

/-- C1 witness: adding `(192, 105)` and `(17, 56)` on `y² = x³ + 7` over
`GF(223)` succeeds. -/
theorem c1_witness :
    ∃ Q, Point.add
      ⟨Coords.point (FieldElement.new 192 223) (FieldElement.new 105 223),
        ⟨FieldElement.new 0 223, FieldElement.new 7 223⟩⟩
      ⟨Coords.point (FieldElement.new 17 223) (FieldElement.new 56 223),
        ⟨FieldElement.new 0 223, FieldElement.new 7 223⟩⟩ = .ok Q :=
  @c1_add_on_curve_ok 223 (by norm_num) (by norm_num)
    ⟨FieldElement.new 0 223, FieldElement.new 7 223⟩
    (FieldElement.new 192 223) (FieldElement.new 105 223)
    (FieldElement.new 17 223) (FieldElement.new 56 223)
    (by decide) (by decide) (by decide) (by decide) (by decide) (by decide)
    (by decide) (by decide)

/-- C6 counterexample: over `GF(3)` with `a = 2`, `b = 1`, the pair `(0, 0)`
does not satisfy `y² − x³ − a·x − b = 0` in the field (it evaluates to `2`),
yet the constructor accepts it, because `pow` computes `y^2` as `y^0 = 1`
when `p − 1 = 2` divides the exponent. -/
theorem c6_counterexample :
    Point.new_point (⟨FieldElement.new 2 3, FieldElement.new 1 3⟩ : WeierstrassCurve)
        (FieldElement.new 0 3) (FieldElement.new 0 3)
      = .ok ⟨Coords.point (FieldElement.new 0 3) (FieldElement.new 0 3),
          ⟨FieldElement.new 2 3, FieldElement.new 1 3⟩⟩ ∧
    toZ 3 (FieldElement.new 0 3) ^ 2 ≠
      toZ 3 (FieldElement.new 0 3) ^ 3 +
        toZ 3 (FieldElement.new 2 3) * toZ 3 (FieldElement.new 0 3) +
        toZ 3 (FieldElement.new 1 3) :=
  ⟨by decide, by decide⟩

/-- C6 (amended): for a modulus `p ≥ 5`, the affine constructor succeeds
exactly when `y² = x³ + a·x + b` holds among the residues of the coordinates
in `ZMod p`, and fails with `InvalidPoint` otherwise. -/
theorem c6_new_point_characterization {p : ℕ} (hp5 : 5 ≤ p)
    {c : WeierstrassCurve} {x y : FieldElement}
    (hx : x.prime = (p : ℤ)) (hy : y.prime = (p : ℤ)) (ha : c.a.prime = (p : ℤ)) :
    (toZ p y ^ 2 = toZ p x ^ 3 + toZ p c.a * toZ p x + toZ p c.b →
      Point.new_point c x y = .ok ⟨Coords.point x y, c⟩) ∧
    (toZ p y ^ 2 ≠ toZ p x ^ 3 + toZ p c.a * toZ p x + toZ p c.b →
      Point.new_point c x y = .error Errors.InvalidPoint) :=
  ⟨fun h => new_point_ok_of ((defining_equation_eq_zero_iff hp5 hx hy ha).mpr h),
   fun h => new_point_err_of
     (fun hc => h ((defining_equation_eq_zero_iff hp5 hx hy ha).mp hc))⟩

/-- C6 witness: on `y² = x³ + 7` over `GF(223)`, `(200, 119)` is rejected with
`InvalidPoint` and `(192, 105)` is accepted. -/
theorem c6_witness :
    Point.new_point (⟨FieldElement.new 0 223, FieldElement.new 7 223⟩ : WeierstrassCurve)
        (FieldElement.new 200 223) (FieldElement.new 119 223)
      = .error Errors.InvalidPoint ∧
    Point.new_point (⟨FieldElement.new 0 223, FieldElement.new 7 223⟩ : WeierstrassCurve)
        (FieldElement.new 192 223) (FieldElement.new 105 223)
      = .ok ⟨Coords.point (FieldElement.new 192 223) (FieldElement.new 105 223),
          ⟨FieldElement.new 0 223, FieldElement.new 7 223⟩⟩ :=
  ⟨(@c6_new_point_characterization 223 (by norm_num)
      ⟨FieldElement.new 0 223, FieldElement.new 7 223⟩
      (FieldElement.new 200 223) (FieldElement.new 119 223)
      (by decide) (by decide) (by decide)).2 (by decide),
   (@c6_new_point_characterization 223 (by norm_num)
      ⟨FieldElement.new 0 223, FieldElement.new 7 223⟩
      (FieldElement.new 192 223) (FieldElement.new 105 223)
      (by decide) (by decide) (by decide)).1 (by decide)⟩

/-- C7 counterexample: with the non-canonical element `x = 7 mod 7` (a valid
`FieldElement` with modulus 7) and the nonzero `y = 1 mod 7`, `(x / y) * y`
returns the canonical `0 mod 7`, which differs from the stored `x`. -/
theorem c7_counterexample :
    (FieldElement.new 1 7).is_zero = false ∧
    ¬ (((FieldElement.new 7 7).fdiv (FieldElement.new 1 7)).fmul (FieldElement.new 1 7)
        = FieldElement.new 7 7) :=
  ⟨by decide, by decide⟩

/-- C7 (amended): for a prime modulus and canonically stored elements, with
`y` nonzero, dividing by `y` and multiplying back by `y` is the identity. -/
theorem c7_div_mul_cancel {p : ℕ} (hp : Nat.Prime p) {x y : FieldElement}
    (hx : canonical p x) (hy : canonical p y) (hynz : y.num ≠ 0) :
    (x.fdiv y).fmul y = x := by
  haveI : Fact p.Prime := ⟨hp⟩
  have hp0 : 0 < p := hp.pos
  have hYne : toZ p y ≠ 0 := fun h => hynz ((toZ_eq_zero_iff hp0 hy).mp h)
  have hdc : canonical p (x.fdiv y) := fdiv_canonical hp0 y hx.1 hx.2.1
  refine toZ_inj (fmul_canonical hp0 y hdc.1) hx ?_
  rw [fmul_toZ y hdc.1, fdiv_toZ hp hx.1 hx.2.1 hYne, mul_assoc,
    inv_mul_cancel₀ hYne, mul_one]

/-- C7 witness: `(3 / 2) * 2 = 3` in `GF(7)`. -/
theorem c7_witness :
    ((FieldElement.new 3 7).fdiv (FieldElement.new 2 7)).fmul (FieldElement.new 2 7)
      = FieldElement.new 3 7 :=
  @c7_div_mul_cancel 7 (by norm_num) (FieldElement.new 3 7) (FieldElement.new 2 7)
    (by decide) (by decide) (by decide)

/-- C8 counterexample: over `GF(3)` with `a = 2`, `b = 1`, the on-curve points
`(0, 1)` and `(1, 1)` have distinct abscissas, but the sum computed by the code
is not the chord-formula point `(slope² − x1 − x2, slope·(x1 − x3) − y1)`
(the broken `pow` computes `slope^2` as `slope^0 = 1`). -/
theorem c8_formula_fails_p3 :
    ((⟨FieldElement.new 2 3, FieldElement.new 1 3⟩ : WeierstrassCurve).defining_equation
        (FieldElement.new 0 3) (FieldElement.new 1 3) =
      FieldElement.zero (FieldElement.new 0 3).prime) ∧
    ((⟨FieldElement.new 2 3, FieldElement.new 1 3⟩ : WeierstrassCurve).defining_equation
        (FieldElement.new 1 3) (FieldElement.new 1 3) =
      FieldElement.zero (FieldElement.new 1 3).prime) ∧
    Point.add
        ⟨Coords.point (FieldElement.new 0 3) (FieldElement.new 1 3),
          ⟨FieldElement.new 2 3, FieldElement.new 1 3⟩⟩
        ⟨Coords.point (FieldElement.new 1 3) (FieldElement.new 1 3),
          ⟨FieldElement.new 2 3, FieldElement.new 1 3⟩⟩
      ≠ .ok ⟨Coords.point
          (ofZ 3 (addXZ 3 (toZ 3 (FieldElement.new 0 3)) (toZ 3 (FieldElement.new 1 3))
            (slopeZ 3 (toZ 3 (FieldElement.new 0 3)) (toZ 3 (FieldElement.new 1 3))
              (toZ 3 (FieldElement.new 1 3)) (toZ 3 (FieldElement.new 1 3)))))
          (ofZ 3 (addYZ 3 (toZ 3 (FieldElement.new 0 3)) (toZ 3 (FieldElement.new 1 3))
            (addXZ 3 (toZ 3 (FieldElement.new 0 3)) (toZ 3 (FieldElement.new 1 3))
              (slopeZ 3 (toZ 3 (FieldElement.new 0 3)) (toZ 3 (FieldElement.new 1 3))
                (toZ 3 (FieldElement.new 1 3)) (toZ 3 (FieldElement.new 1 3))))
            (slopeZ 3 (toZ 3 (FieldElement.new 0 3)) (toZ 3 (FieldElement.new 1 3))
              (toZ 3 (FieldElement.new 1 3)) (toZ 3 (FieldElement.new 1 3))))),
          ⟨FieldElement.new 2 3, FieldElement.new 1 3⟩⟩ := by
  refine ⟨by decide, by decide, ?_⟩
  rw [show slopeZ 3 (toZ 3 (FieldElement.new 0 3)) (toZ 3 (FieldElement.new 1 3))
      (toZ 3 (FieldElement.new 1 3)) (toZ 3 (FieldElement.new 1 3)) = 0 from by
    rw [slopeZ, sub_self, zero_mul]]
  decide

/-- C8 (amended): for a prime `p ≥ 5` and canonical on-curve points with
distinct abscissas, addition returns exactly the chord-formula point:
`x3 = slope² − x1 − x2` and `y3 = slope·(x1 − x3) − y1` with
`slope = (y2 − y1)/(x2 − x1)` computed in `ZMod p`, stored canonically. -/
theorem c8_add_distinct_formula {p : ℕ} (hp : Nat.Prime p) (hp5 : 5 ≤ p)
    {c : WeierstrassCurve} {x1 y1 x2 y2 : FieldElement}
    (hca : c.a.prime = (p : ℤ)) (hcb : c.b.prime = (p : ℤ))
    (hx1 : canonical p x1) (hy1 : canonical p y1)
    (hx2 : canonical p x2) (hy2 : canonical p y2)
    (h1 : c.defining_equation x1 y1 = FieldElement.zero x1.prime)
    (h2 : c.defining_equation x2 y2 = FieldElement.zero x2.prime)
    (hne : x1.num ≠ x2.num) :
    Point.add ⟨Coords.point x1 y1, c⟩ ⟨Coords.point x2 y2, c⟩ =
      .ok ⟨Coords.point
        (ofZ p (addXZ p (toZ p x1) (toZ p x2)
          (slopeZ p (toZ p x1) (toZ p y1) (toZ p x2) (toZ p y2))))
        (ofZ p (addYZ p (toZ p x1) (toZ p y1)
          (addXZ p (toZ p x1) (toZ p x2)
            (slopeZ p (toZ p x1) (toZ p y1) (toZ p x2) (toZ p y2)))
          (slopeZ p (toZ p x1) (toZ p y1) (toZ p x2) (toZ p y2)))), c⟩ :=
  add_distinct_eq hp hp5 hca hcb hx1 hy1 hx2 hy2 h1 h2 hne

/-- C8 witness: the two regression vectors of the specification over
`y² = x³ + 7 mod 223`: `(192,105) + (17,56) = (170,142)` and
`(170,142) + (60,139) = (220,181)`. -/
theorem c8_witness :
    Point.add
        ⟨Coords.point (FieldElement.new 192 223) (FieldElement.new 105 223),
          ⟨FieldElement.new 0 223, FieldElement.new 7 223⟩⟩
        ⟨Coords.point (FieldElement.new 17 223) (FieldElement.new 56 223),
          ⟨FieldElement.new 0 223, FieldElement.new 7 223⟩⟩
      = .ok ⟨Coords.point (FieldElement.new 170 223) (FieldElement.new 142 223),
          ⟨FieldElement.new 0 223, FieldElement.new 7 223⟩⟩ ∧
    Point.add
        ⟨Coords.point (FieldElement.new 170 223) (FieldElement.new 142 223),
          ⟨FieldElement.new 0 223, FieldElement.new 7 223⟩⟩
        ⟨Coords.point (FieldElement.new 60 223) (FieldElement.new 139 223),
          ⟨FieldElement.new 0 223, FieldElement.new 7 223⟩⟩
      = .ok ⟨Coords.point (FieldElement.new 220 223) (FieldElement.new 181 223),
          ⟨FieldElement.new 0 223, FieldElement.new 7 223⟩⟩ := by
  have hm1 : (toZ 223 (FieldElement.new 17 223) - toZ 223 (FieldElement.new 192 223)) * 79 = 1 :=
    by decide
  have hm2 : (toZ 223 (FieldElement.new 60 223) - toZ 223 (FieldElement.new 170 223)) * 75 = 1 :=
    by decide
  have hi1 : (toZ 223 (FieldElement.new 17 223) - toZ 223 (FieldElement.new 192 223))⁻¹ = 79 := by
    haveI : Fact (Nat.Prime 223) := ⟨by norm_num⟩
    exact inv_eq_of_mul_eq_one_right hm1
  have hi2 : (toZ 223 (FieldElement.new 60 223) - toZ 223 (FieldElement.new 170 223))⁻¹ = 75 := by
    haveI : Fact (Nat.Prime 223) := ⟨by norm_num⟩
    exact inv_eq_of_mul_eq_one_right hm2
  have hs1 : slopeZ 223 (toZ 223 (FieldElement.new 192 223)) (toZ 223 (FieldElement.new 105 223))
      (toZ 223 (FieldElement.new 17 223)) (toZ 223 (FieldElement.new 56 223)) = 143 := by
    rw [slopeZ, hi1]
    decide
  have hs2 : slopeZ 223 (toZ 223 (FieldElement.new 170 223)) (toZ 223 (FieldElement.new 142 223))
      (toZ 223 (FieldElement.new 60 223)) (toZ 223 (FieldElement.new 139 223)) = 221 := by
    rw [slopeZ, hi2]
    decide
  constructor
  · rw [@c8_add_distinct_formula 223 (by norm_num) (by norm_num)
      ⟨FieldElement.new 0 223, FieldElement.new 7 223⟩
      (FieldElement.new 192 223) (FieldElement.new 105 223)
      (FieldElement.new 17 223) (FieldElement.new 56 223)
      (by decide) (by decide) (by decide) (by decide) (by decide) (by decide)
      (by decide) (by decide) (by decide), hs1]
    decide
  · rw [@c8_add_distinct_formula 223 (by norm_num) (by norm_num)
      ⟨FieldElement.new 0 223, FieldElement.new 7 223⟩
      (FieldElement.new 170 223) (FieldElement.new 142 223)
      (FieldElement.new 60 223) (FieldElement.new 139 223)
      (by decide) (by decide) (by decide) (by decide) (by decide) (by decide)
      (by decide) (by decide) (by decide), hs2]
    decide

/-- C9 counterexample: over `GF(3)` with `a = b = 0`, the point `(1, 1)` is
accepted by the defining-equation check, yet multiplying it by the scalar `1`
aborts (the loop doubles `current` even on the final iteration, and that
doubling panics), instead of returning the point unchanged. -/
theorem c9_mul_one_panics :
    ((⟨FieldElement.new 0 3, FieldElement.new 0 3⟩ : WeierstrassCurve).defining_equation
        (FieldElement.new 1 3) (FieldElement.new 1 3) =
      FieldElement.zero (FieldElement.new 1 3).prime) ∧
    Point.mul
      ⟨Coords.point (FieldElement.new 1 3) (FieldElement.new 1 3),
        ⟨FieldElement.new 0 3, FieldElement.new 0 3⟩⟩ 1
      = .error Panic.unwrapFailed :=
  ⟨by decide, by decide⟩

/-- C9 (amended): for a prime `p ≥ 5` and a point on a curve over `GF(p)`
whose affine coordinates (if any) are canonical and satisfy the defining
equation, scalar multiplication by `0` yields the infinity point on the same
curve and scalar multiplication by `1` yields the point unchanged (same
coordinates, same curve). -/
theorem c9_mul_zero_one {p : ℕ} (hp : Nat.Prime p) (hp5 : 5 ≤ p)
    {c : WeierstrassCurve} (hca : c.a.prime = (p : ℤ)) (hcb : c.b.prime = (p : ℤ))
    {P : Point} (hP : validPoint p c P) :
    P.mul 0 = .ok (Point.new_infinity P.curve) ∧ P.mul 1 = .ok P := by
  constructor
  · rfl
  · obtain ⟨Q, hQ⟩ := add_ok hp hp5 hca hcb hP hP
    have hinf : (Point.new_infinity P.curve).add P = .ok P := by
      obtain ⟨pc, pcurve⟩ := P
      obtain ⟨hPc, hv⟩ := hP
      cases hPc
      exact infinity_add pc
    show Point.mulGo 1 1 P (Point.new_infinity P.curve) = .ok P
    rw [show Point.mulGo 1 1 P (Point.new_infinity P.curve) =
        (match (Point.new_infinity P.curve).add P with
         | .error e => .error e
         | .ok result2 =>
           match P.add P with
           | .error e => .error e
           | .ok current2 => Point.mulGo 0 0 current2 result2) from rfl]
    rw [hinf, hQ]
    rfl

/-- C9 witness: the point `(47, 71)` on `y² = x³ + 7` over `GF(223)` times `0`
is infinity and times `1` is itself. -/
theorem c9_witness :
    Point.mul
      ⟨Coords.point (FieldElement.new 47 223) (FieldElement.new 71 223),
        ⟨FieldElement.new 0 223, FieldElement.new 7 223⟩⟩ 0
      = .ok (Point.new_infinity ⟨FieldElement.new 0 223, FieldElement.new 7 223⟩) ∧
    Point.mul
      ⟨Coords.point (FieldElement.new 47 223) (FieldElement.new 71 223),
        ⟨FieldElement.new 0 223, FieldElement.new 7 223⟩⟩ 1
      = .ok ⟨Coords.point (FieldElement.new 47 223) (FieldElement.new 71 223),
          ⟨FieldElement.new 0 223, FieldElement.new 7 223⟩⟩ :=
  @c9_mul_zero_one 223 (by norm_num) (by norm_num)
    ⟨FieldElement.new 0 223, FieldElement.new 7 223⟩ (by decide) (by decide)
    ⟨Coords.point (FieldElement.new 47 223) (FieldElement.new 71 223),
      ⟨FieldElement.new 0 223, FieldElement.new 7 223⟩⟩
    ⟨rfl, fun x y h => by cases h; exact ⟨by decide, by decide, by decide⟩⟩

end Bitcoin
